import Mathlib

/-!
Verification of the `playground-tab-bar` element (drag-reorder tab bar).

The TypeScript class `PlaygroundTabBar` keeps the state fields
`_activeFileName`, `_activeFileIndex`, `_draggableFileIndex`,
`_draggedFileIndex` and `_targetFileIndex`, and reacts to DOM events with
the handlers `_originTabDragStart`, `_originTabDragEnd`,
`_targetTabDragOver`, `_targetTabDragLeave`, `_targetTabDrop`,
`_dragIndicatorMouseOver`, `_dragIndicatorMouseOut`, `_onTabchange`,
`_handleFilesChanged` and `_setNewActiveFile`.  Each handler is embedded
below as a pure function on an explicit state record; the single effect on
the external Project (`moveFileAfter`) is returned as an explicit command
value instead of being performed.
-/

namespace PlaygroundTabBar

/-- A file record as read from the Project collaborator:
`{name, label?, hidden?, selected?}`. -/
structure FileRecord where
  name : String
  label : Option String := none
  hidden : Bool := false
  selected : Bool := false
deriving Repr, DecidableEq

/-- `get _visibleFiles() { return (this._project?.files ?? []).filter(({hidden}) => !hidden); }` -/
def visibleFiles (files : List FileRecord) : List FileRecord :=
  files.filter (fun f => !f.hidden)

/-- The component state owned by `PlaygroundTabBar`.  JavaScript
`number | undefined` fields become `Option Int` (the target index can be
`-1`, computed as `index - 1` at index `0`). -/
structure TabBarState where
  editableFileSystem : Bool := false
  activeFileName : String := ""
  activeFileIndex : Nat := 0
  draggableFileIndex : Option Int := none
  draggedFileIndex : Option Int := none
  targetFileIndex : Option Int := none
deriving Repr, DecidableEq

/-- The one command this component issues to the external Project:
`this._project!.moveFileAfter(this._draggedFileIndex, this._targetFileIndex)`. -/
structure Command where
  source : Int
  target : Int
deriving Repr, DecidableEq

/-- JavaScript falsiness of a `number | undefined` value: `!x` is true
exactly for `undefined` and `0` (no `NaN` arises in this component). -/
def jsFalsy : Option Int → Bool
  | none => true
  | some n => n == 0

/-- `_originTabDragStart(index, event)`: `this._draggedFileIndex = index`. -/
def originTabDragStart (index : Int) (s : TabBarState) : TabBarState :=
  { s with draggedFileIndex := some index }

/-- `_originTabDragEnd()`: `this._draggedFileIndex = undefined`. -/
def originTabDragEnd (s : TabBarState) : TabBarState :=
  { s with draggedFileIndex := none }

/-- The `dropLeft` computation of `_targetTabDragOver`:
`let dropLeft = true; if (target instanceof PlaygroundInternalTab) {
  const rect = target.getBoundingClientRect();
  dropLeft = event.clientX < rect.left + rect.width / 2; }` -/
def computeDropLeft (isTab : Bool) (clientX rectLeft rectWidth : ℚ) : Bool :=
  if isTab then decide (clientX < rectLeft + rectWidth / 2) else true

/-- `_targetTabDragOver(index, event)` from the source, with the geometry
inputs of the event made explicit. -/
def targetTabDragOver (index : Int) (isTab : Bool) (clientX rectLeft rectWidth : ℚ)
    (s : TabBarState) : TabBarState :=
  -- `if (index === this._draggedFileIndex) { this._targetFileIndex = undefined; return; }`
  if s.draggedFileIndex = some index then
    { s with targetFileIndex := none }
  else
    let dropLeft := computeDropLeft isTab clientX rectLeft rectWidth
    if dropLeft then
      -- `if (index - 1 !== this._draggedFileIndex) { this._targetFileIndex = index - 1; }`
      if s.draggedFileIndex ≠ some (index - 1) then
        { s with targetFileIndex := some (index - 1) }
      else
        { s with targetFileIndex := none }
    else
      -- `if (index + 1 !== this._draggedFileIndex) { this._targetFileIndex = index; }`
      if s.draggedFileIndex ≠ some (index + 1) then
        { s with targetFileIndex := some index }
      else
        { s with targetFileIndex := none }

/-- `_targetTabDragLeave(event)`: clears the target only when the related
target lies outside the hovered element; that containment test is the
boolean input `exited`. -/
def targetTabDragLeave (exited : Bool) (s : TabBarState) : TabBarState :=
  if exited then { s with targetFileIndex := none } else s

/-- `_targetTabDrop(event)`:
`if (!this._draggedFileIndex || (!this._targetFileIndex && this._targetFileIndex !== 0)) return;
 this._project!.moveFileAfter(this._draggedFileIndex, this._targetFileIndex);
 this._targetFileIndex = undefined;`
The issued `moveFileAfter` call is returned as an explicit `Command`. -/
def targetTabDrop (s : TabBarState) : TabBarState × Option Command :=
  if jsFalsy s.draggedFileIndex ||
      (jsFalsy s.targetFileIndex && s.targetFileIndex ≠ some 0) then
    (s, none)
  else
    ({ s with targetFileIndex := none },
      some { source := s.draggedFileIndex.getD 0, target := s.targetFileIndex.getD 0 })

/-- `_dragIndicatorMouseOver(index)`: `this._draggableFileIndex = index`. -/
def dragIndicatorMouseOver (index : Int) (s : TabBarState) : TabBarState :=
  { s with draggableFileIndex := some index }

/-- `_dragIndicatorMouseOut()`: `this._draggableFileIndex = undefined`. -/
def dragIndicatorMouseOut (s : TabBarState) : TabBarState :=
  { s with draggableFileIndex := none }

/-- The backward walk of `_setNewActiveFile`:
`for (let i = this._activeFileIndex; i >= 0; i--) {
   const file = this._visibleFiles[i];
   if (file && !file.hidden) { ... return; } }` -/
def backwardWalk (v : List FileRecord) : Nat → Option FileRecord
  | 0 =>
    match v.get? 0 with
    | some f => if !f.hidden then some f else none
    | none => none
  | i + 1 =>
    match v.get? (i + 1) with
    | some f => if !f.hidden then some f else backwardWalk v i
    | none => backwardWalk v i

/-- `_setNewActiveFile()` as a function from the visible file list and the
previous `(activeFileName, activeFileIndex)` pair to the new pair.
The first branch keeps the same filename if still present (JS `findIndex`
returning `-1` is the `none` case); the second branch walks backward from
the previous index and assigns only the name; the last branch resets both. -/
def setNewActiveFile (v : List FileRecord) (activeName : String) (activeIndex : Nat) :
    String × Nat :=
  match (if activeName ≠ "" then v.findIdx? (fun f => f.name == activeName) else none) with
  | some index => (activeName, index)
  | none =>
    match backwardWalk v activeIndex with
    | some f => (f.name, activeIndex)
    | none => ("", 0)

/-- `_handleFilesChanged(newProjectLoaded)` restricted to its effect on
`(activeFileName, activeFileIndex)`:
`if (newProjectLoaded) { const fileToSelect = this._visibleFiles.find((file) => file.selected)?.name;
   if (fileToSelect !== undefined) { this._activeFileName = fileToSelect; } }
 this._setNewActiveFile();` -/
def handleFilesChanged (v : List FileRecord) (newProjectLoaded : Bool)
    (activeName : String) (activeIndex : Nat) : String × Nat :=
  let activeName' :=
    if newProjectLoaded then
      match v.find? (fun f => f.selected) with
      | some f => f.name
      | none => activeName
    else activeName
  setNewActiveFile v activeName' activeIndex

/-- `_onTabchange(event)` after the `if (!tab) return;` guard, given the
tab's filename and index:
`if (name !== this._activeFileName) { this._activeFileName = name; this._activeFileIndex = index; }` -/
def onTabchange (s : TabBarState) (name : String) (index : Nat) : TabBarState :=
  if name ≠ s.activeFileName then
    { s with activeFileName := name, activeFileIndex := index }
  else s

/-- Modelled from the spec: the Project collaborator's `moveFileAfter`
command is not part of the sources here (only its call sites are), so it is
taken from the spec's words: "move the file at `draggedIndex` to
immediately after the file at `targetIndex`", where the target index is "an
index meaning insert immediately after this position" (so target `-1`
inserts at the front).  The file at `source` is removed and re-inserted
immediately after the position that held the target before the move. -/
def moveFileAfter (v : List FileRecord) (source : Nat) (target : Int) : List FileRecord :=
  match v.get? source with
  | none => v
  | some f =>
    let rest := v.eraseIdx source
    let pos : Nat := if target < (source : Int) then (target + 1).toNat else target.toNat
    rest.insertIdx pos f

/-- The `draggable` binding of `render()`:
`draggable=${this.editableFileSystem && index === this._draggableFileIndex && this._visibleFiles.length > 2}`. -/
def tabDraggable (files : List FileRecord) (s : TabBarState) (index : Nat) : Bool :=
  s.editableFileSystem && s.draggableFileIndex == some (index : Int) &&
    decide ((visibleFiles files).length > 2)

/-- The condition of `render()` under which a drag-indicator button (the
only element carrying the `_dragIndicatorMouseOver` handler) exists on the
tab at `index`:
`this.editableFileSystem && name !== 'index.html' && this._visibleFiles.length > 2`. -/
def indicatorPresent (files : List FileRecord) (s : TabBarState) (index : Nat) : Bool :=
  s.editableFileSystem &&
    (match (visibleFiles files).get? index with
     | some f => f.name != "index.html"
     | none => false) &&
    decide ((visibleFiles files).length > 2)

/-- The pointer and hover events the tab bar reacts to.  `dragOver` carries
the hovered tab's index and the geometry read from the event; `dragLeave`
carries the result of the containment test on the related target. -/
inductive Ev where
  | indicatorOver (i : Nat)
  | indicatorOut
  | dragStart (i : Nat)
  | dragEnd
  | dragOver (i : Nat) (isTab : Bool) (clientX rectLeft rectWidth : ℚ)
  | dragLeave (exited : Bool)
  | drop
deriving Repr, DecidableEq

/-- One event step.  The DOM delivers `mouseover` on a drag indicator only
when `render()` created it, and fires `dragstart` on a tab only when its
`draggable` binding is true; those render-derived conditions guard the
corresponding transitions.  The other handlers are attached
unconditionally. -/
def step (files : List FileRecord) (s : TabBarState) : Ev → TabBarState × Option Command
  | Ev.indicatorOver i =>
    (if indicatorPresent files s i then dragIndicatorMouseOver (i : Int) s else s, none)
  | Ev.indicatorOut => (dragIndicatorMouseOut s, none)
  | Ev.dragStart i =>
    (if tabDraggable files s i then originTabDragStart (i : Int) s else s, none)
  | Ev.dragEnd => (originTabDragEnd s, none)
  | Ev.dragOver i isTab x l w => (targetTabDragOver (i : Int) isTab x l w s, none)
  | Ev.dragLeave exited => (targetTabDragLeave exited s, none)
  | Ev.drop => targetTabDrop s

/-- Run a sequence of events, collecting every command issued to the
Project. -/
def run (files : List FileRecord) (s : TabBarState) :
    List Ev → TabBarState × List Command
  | [] => (s, [])
  | e :: rest =>
    let p := step files s e
    let q := run files p.1 rest
    (q.1, p.2.toList ++ q.2)

/-- The initial state of a freshly attached tab bar (`_activeFileName = ''`,
`_activeFileIndex = 0`, no drag session). -/
def initState (editable : Bool) : TabBarState :=
  { editableFileSystem := editable }

/-- The visible files of Scenario B: `[index.html, a.js, b.js, c.js]`. -/
def scenarioBfiles : List FileRecord :=
  [{ name := "index.html" }, { name := "a.js" }, { name := "b.js" }, { name := "c.js" }]

/-- The files of Scenario C: `index.html` plus `a.js` flagged `selected`. -/
def scenarioCfiles : List FileRecord :=
  [{ name := "index.html" }, { name := "a.js", selected := true }]

/-- A demonstration event sequence: hover the drag indicator of `c.js`
(index 3), start dragging it, drag over tab index 1 with the event target
a child element (so the left-side default applies), and drop. -/
def demoEvs : List Ev :=
  [Ev.indicatorOver 3, Ev.dragStart 3, Ev.dragOver 1 false 0 0 0, Ev.drop]

/-- An optional index field points at a visible non-pinned file: whenever
it is `some i`, the visible file at `i` exists and is not `index.html`. -/
def okIdx (files : List FileRecord) (oi : Option Int) : Prop :=
  ∀ i : Int, oi = some i →
    ∃ f, (visibleFiles files).get? i.toNat = some f ∧ f.name ≠ "index.html"

/-- The drag-affordance invariant: both `_draggableFileIndex` and
`_draggedFileIndex` only ever point at visible files other than
`index.html`. -/
def Inv (files : List FileRecord) (s : TabBarState) : Prop :=
  okIdx files s.draggableFileIndex ∧ okIdx files s.draggedFileIndex

/-- A state in the middle of a drag of the first visible tab (index `0`)
with the valid target index `2` established. -/
def dropStateZero : TabBarState :=
  { draggedFileIndex := some 0, targetFileIndex := some 2 }

/-- A state in the middle of a drag of the tab at index `2` with the valid
target index `0` established. -/
def dropStateTwo : TabBarState :=
  { draggedFileIndex := some 2, targetFileIndex := some 0 }

/-- A state in the middle of a drag of the tab at index `3`. -/
def dropStateThree : TabBarState :=
  { draggedFileIndex := some 3 }

/-- The visible files of Scenario A after `a.js` has been deleted. -/
def scenarioAfiles : List FileRecord :=
  [{ name := "index.html" }, { name := "b.js" }]

/-- A drop with an undefined or zero dragged index, or an undefined target
index, leaves the state unchanged and issues no command. -/
theorem targetTabDrop_noop (s : TabBarState)
    (h : (s.draggedFileIndex = none ∨ s.draggedFileIndex = some 0) ∨
      s.targetFileIndex = none) : targetTabDrop s = (s, none) := by
  unfold targetTabDrop
  rcases h with (h | h) | h <;> simp [jsFalsy, h]

/-- A drop with a nonzero dragged index and an established target index
issues exactly the `moveFileAfter` command for that pair and clears only
the target index. -/
theorem targetTabDrop_issues (s : TabBarState) (d t : Int)
    (hd : s.draggedFileIndex = some d) (hd0 : d ≠ 0) (ht : s.targetFileIndex = some t) :
    targetTabDrop s =
      ({ s with targetFileIndex := none }, some { source := d, target := t }) := by
  unfold targetTabDrop
  by_cases ht0 : t = 0 <;> simp [jsFalsy, hd, ht, hd0, ht0]

/-- Case analysis of `_targetTabDragOver` during a drag from `src`. -/
theorem targetTabDragOver_cases (s : TabBarState) (src index : Int) (isTab : Bool)
    (clientX rectLeft rectWidth : ℚ) (hdrag : s.draggedFileIndex = some src) :
    targetTabDragOver index isTab clientX rectLeft rectWidth s =
      if src = index then { s with targetFileIndex := none }
      else if computeDropLeft isTab clientX rectLeft rectWidth then
        if src = index - 1 then { s with targetFileIndex := none }
        else { s with targetFileIndex := some (index - 1) }
      else
        if src = index + 1 then { s with targetFileIndex := none }
        else { s with targetFileIndex := some index } := by
  unfold targetTabDragOver
  by_cases h0 : src = index
  · simp [hdrag, h0]
  · by_cases hL : computeDropLeft isTab clientX rectLeft rectWidth <;>
      by_cases h1 : src = index - 1 <;> by_cases h2 : src = index + 1 <;>
      simp [hdrag, h0, hL, h1, h2]

/-- C1, counterexample.  The claim says a drop with `draggedIndex = 0` and
a valid target issues the `moveFileAfter` command, and that a successful
drop clears both `draggedIndex` and `targetIndex`.  The drop guard
`if (!this._draggedFileIndex || ...)` treats the dragged index `0` as
falsy, so that drop issues nothing and changes nothing; and a successful
drop (dragged `2`, target `0`) clears only `targetIndex`, leaving
`draggedIndex` set. -/
theorem targetTabDrop_claim_counterexample :
    (targetTabDrop dropStateZero).2 = none ∧
    (targetTabDrop dropStateZero).1 = dropStateZero ∧
    (targetTabDrop dropStateTwo).2 = some { source := 2, target := 0 } ∧
    (targetTabDrop dropStateTwo).1.draggedFileIndex = some 2 := by
  refine ⟨rfl, rfl, rfl, rfl⟩

/-- C1, amended: for every drop event, if `draggedIndex` is undefined or
equal to `0`, or no `targetIndex` is set (`0` is a valid target index),
the drop changes nothing; otherwise exactly one
`moveFileAfter(draggedIndex, targetIndex)` command is issued and the
`targetIndex` alone is cleared (`draggedIndex` is left for the dragend
handler to clear). -/
theorem targetTabDrop_amended (s : TabBarState) :
    (((s.draggedFileIndex = none ∨ s.draggedFileIndex = some 0) ∨
        s.targetFileIndex = none) → targetTabDrop s = (s, none)) ∧
    (∀ d t : Int, s.draggedFileIndex = some d → d ≠ 0 → s.targetFileIndex = some t →
        targetTabDrop s = ({ s with targetFileIndex := none },
          some { source := d, target := t })) :=
  ⟨fun h => targetTabDrop_noop s h,
   fun d t hd hd0 ht => targetTabDrop_issues s d t hd hd0 ht⟩

/-- C1, witness for the amended theorem at a concrete drop. -/
theorem targetTabDrop_amended_witness :
    targetTabDrop dropStateTwo =
      ({ dropStateTwo with targetFileIndex := none },
        some { source := 2, target := 0 }) :=
  (targetTabDrop_amended dropStateTwo).2 2 0 rfl (by decide) rfl

/-- C2, counterexample.  Deleting `a.js` from `[index.html, a.js, b.js]`
while it is active (previous index `1`) and running recovery does not make
`index.html` active: the backward walk stays on index `1`, which now holds
`b.js`. -/
theorem recovery_scenarioA_counterexample :
    (setNewActiveFile (visibleFiles scenarioAfiles) "a.js" 1).1 ≠ "index.html" ∧
    setNewActiveFile (visibleFiles scenarioAfiles) "a.js" 1 = ("b.js", 1) := by
  refine ⟨by decide, rfl⟩

/-- C2, amended: with visible files `[index.html, a.js, b.js]` and active
file `a.js` (index 1), deleting `a.js` and running active-file recovery
makes `b.js` — the file that shifted into the previous active index 1 —
the active file, not `index.html`. -/
theorem recovery_scenarioA_amended :
    handleFilesChanged (visibleFiles scenarioAfiles) false "a.js" 1 = ("b.js", 1) := rfl

/-- C9: a tab-change event whose tab carries a filename equal to the
current `activeFileName` leaves the whole state unchanged; in particular
the stored `activeFileIndex` is not refreshed even when the tab's reported
index differs from it. -/
theorem onTabchange_same_name_frame (s : TabBarState) (name : String) (index : Nat)
    (h : name = s.activeFileName) : onTabchange s name index = s := by
  simp [onTabchange, h]

/-- C9, witness: the active name `a.js` stored at index `1`, reported by a
tab at index `5`, leaves the state untouched. -/
theorem onTabchange_same_name_frame_witness :
    onTabchange { activeFileName := "a.js", activeFileIndex := 1 } "a.js" 5 =
      { activeFileName := "a.js", activeFileIndex := 1 } :=
  onTabchange_same_name_frame { activeFileName := "a.js", activeFileIndex := 1 } "a.js" 5 rfl

/-- C4: during a drag from `src`, a drag-over on the tab at `index` sets no
target when `index = src`; otherwise, a pointer left of the tab's
horizontal midpoint (`computeDropLeft` true) proposes `index - 1` and a
pointer right of it proposes `index`, except that a proposal equal to
`src - 1` or `src` is rejected (target cleared).  The final conjunct states
the rejection globally: whatever target the handler leaves set is neither
`src` nor `src - 1`. -/
theorem targetTabDragOver_target_rules (s : TabBarState) (src index : Int) (isTab : Bool)
    (clientX rectLeft rectWidth : ℚ) (hdrag : s.draggedFileIndex = some src) :
    (index = src →
      (targetTabDragOver index isTab clientX rectLeft rectWidth s).targetFileIndex = none) ∧
    (index ≠ src → computeDropLeft isTab clientX rectLeft rectWidth = true →
      (targetTabDragOver index isTab clientX rectLeft rectWidth s).targetFileIndex =
        if index - 1 = src then none else some (index - 1)) ∧
    (index ≠ src → computeDropLeft isTab clientX rectLeft rectWidth = false →
      (targetTabDragOver index isTab clientX rectLeft rectWidth s).targetFileIndex =
        if index + 1 = src then none else some index) ∧
    (∀ t : Int,
      (targetTabDragOver index isTab clientX rectLeft rectWidth s).targetFileIndex = some t →
      t ≠ src ∧ t ≠ src - 1) := by
  rw [targetTabDragOver_cases s src index isTab clientX rectLeft rectWidth hdrag]
  refine ⟨?_, ?_, ?_, ?_⟩
  · intro h
    simp [h]
  · intro hne hL
    have hsi : ¬src = index := fun hh => hne hh.symm
    by_cases h1 : src = index - 1
    · simp [hsi, hL, h1]
    · have h1' : ¬index - 1 = src := fun hh => h1 hh.symm
      simp [hsi, hL, h1, h1']
  · intro hne hL
    have hsi : ¬src = index := fun hh => hne hh.symm
    by_cases h2 : src = index + 1
    · simp [hsi, hL, h2]
    · have h2' : ¬index + 1 = src := fun hh => h2 hh.symm
      simp [hsi, hL, h2, h2']
  · intro t hsome
    by_cases h0 : src = index
    · simp [h0] at hsome
    · by_cases hL : computeDropLeft isTab clientX rectLeft rectWidth
      · by_cases h1 : src = index - 1
        · simp [h0, hL, h1] at hsome
        · simp [h0, hL, h1] at hsome
          omega
      · by_cases h2 : src = index + 1
        · simp [h0, hL, h2] at hsome
        · simp [h0, hL, h2] at hsome
          omega

/-- C4, witness: dragging from index `3`, a drag-over on the tab at index
`1` with the pointer in its left half proposes target `0`; no proposal
equal to `3` or `2` survives. -/
theorem targetTabDragOver_target_rules_witness :
    (targetTabDragOver 1 true 10 5 20 dropStateThree).targetFileIndex =
      if (1 : Int) - 1 = 3 then none else some 0 :=
  (targetTabDragOver_target_rules dropStateThree 3 1 true 10 5 20 rfl).2.1
    (by decide) (by norm_num [computeDropLeft])

/-- C8: during a drag with `draggedIndex ≥ 2`, a drag-over with the pointer
in the left half of the tab at index `0` sets the proposed target index to
`-1`, and a subsequent drop passes `-1` through the validity guard
(`-1` is truthy in JavaScript) and issues `moveFileAfter(draggedIndex, -1)`
to the Project. -/
theorem dragOver_first_tab_then_drop (s : TabBarState) (d : Int)
    (clientX rectLeft rectWidth : ℚ)
    (hd : s.draggedFileIndex = some d) (hd2 : 2 ≤ d)
    (hx : clientX < rectLeft + rectWidth / 2) :
    (targetTabDragOver 0 true clientX rectLeft rectWidth s).targetFileIndex = some (-1) ∧
    targetTabDrop (targetTabDragOver 0 true clientX rectLeft rectWidth s) =
      ({ s with targetFileIndex := none }, some { source := d, target := -1 }) := by
  have hL : computeDropLeft true clientX rectLeft rectWidth = true := by
    simp [computeDropLeft, hx]
  have h0 : ¬d = (0 : Int) := by omega
  have h1 : ¬d = (0 : Int) - 1 := by omega
  have hs' : targetTabDragOver 0 true clientX rectLeft rectWidth s =
      { s with targetFileIndex := some (-1) } := by
    rw [targetTabDragOver_cases s d 0 true clientX rectLeft rectWidth hd]
    simp only [hL, if_neg h0, if_neg h1, ite_true]
    norm_num
  rw [hs']
  refine ⟨rfl, ?_⟩
  exact targetTabDrop_issues { s with targetFileIndex := some (-1) } d (-1)
    (by simpa using hd) h0 rfl

/-- The backward walk over the empty list finds nothing. -/
theorem backwardWalk_nil (i : Nat) : backwardWalk [] i = none := by
  induction i with
  | zero => rfl
  | succ i ih => simpa [backwardWalk] using ih

/-- On a list with no hidden entries, the backward walk from `i` stops at
index `min i (v.length - 1)` — the largest existing index at most `i`. -/
theorem backwardWalk_noHidden (v : List FileRecord) (hv : ∀ f ∈ v, f.hidden = false)
    (hne : v ≠ []) (i : Nat) :
    backwardWalk v i = v.get? (min i (v.length - 1)) := by
  have hlen : 0 < v.length := List.length_pos.mpr hne
  induction i with
  | zero =>
    cases hget : v.get? 0 with
    | none => exact absurd (List.get?_eq_none.mp hget) (by omega)
    | some f =>
      have hh : f.hidden = false := hv f (List.get?_mem hget)
      rw [List.get?_eq_getElem?] at hget
      simp [backwardWalk, hget, hh, List.get?_eq_getElem?,
        Nat.min_eq_left (by omega : 0 ≤ v.length - 1)]
  | succ i ih =>
    cases hget : v.get? (i + 1) with
    | none =>
      have hle : v.length ≤ i + 1 := List.get?_eq_none.mp hget
      have hmin : min (i + 1) (v.length - 1) = min i (v.length - 1) := by omega
      rw [List.get?_eq_getElem?] at hget
      simp [backwardWalk, hget, ih, hmin]
    | some f =>
      have hh : f.hidden = false := hv f (List.get?_mem hget)
      have hlt : i + 1 < v.length := by
        by_contra hcon
        rw [List.get?_eq_none.mpr (by omega)] at hget
        exact Option.noConfusion hget
      have hmin : min (i + 1) (v.length - 1) = i + 1 := by omega
      rw [List.get?_eq_getElem?] at hget
      simp [backwardWalk, hget, hh, hmin, List.get?_eq_getElem?]

/-- Every visible file is non-hidden. -/
theorem visibleFiles_noHidden (files : List FileRecord) :
    ∀ f ∈ visibleFiles files, f.hidden = false := by
  intro f hf
  have := (List.mem_filter.mp hf).2
  simpa using this

/-- When the previous active name occurs among no visible file, the first
branch of `_setNewActiveFile` falls through to the backward walk. -/
theorem setNewActiveFile_fallback (v : List FileRecord) (prevName : String) (prevIdx : Nat)
    (h : prevName ∉ v.map FileRecord.name) :
    setNewActiveFile v prevName prevIdx =
      match backwardWalk v prevIdx with
      | some f => (f.name, prevIdx)
      | none => ("", 0) := by
  have hfind : v.findIdx? (fun f => f.name == prevName) = none := by
    rw [List.findIdx?_eq_none_iff]
    intro f hf
    simp only [beq_eq_false_iff_ne, ne_eq]
    intro hfn
    exact h (List.mem_map.mpr ⟨f, hf, hfn⟩)
  unfold setNewActiveFile
  by_cases hne : prevName = "" <;> simp [hne, hfind]

/-- When a visible file carries the (nonempty) active name, the first
branch of `_setNewActiveFile` keeps the name and stores the name's
position, which indeed holds a file of that name. -/
theorem setNewActiveFile_found (v : List FileRecord) (activeName : String) (idx : Nat)
    (hne : activeName ≠ "") (hex : ∃ x ∈ v, (x.name == activeName) = true) :
    setNewActiveFile v activeName idx =
      (activeName, v.findIdx (fun x => x.name == activeName)) ∧
    (v.get? (v.findIdx (fun x => x.name == activeName))).map FileRecord.name =
      some activeName := by
  have hfi := List.findIdx?_eq_some_of_exists hex
  have hlt := List.findIdx_lt_length_of_exists hex
  have hp := @List.findIdx_getElem _ (fun x => x.name == activeName) v hlt
  constructor
  · unfold setNewActiveFile
    simp [hne, hfi]
  · rw [List.get?_eq_getElem?, List.getElem?_eq_getElem hlt]
    simpa using hp

/-- `moveFileAfter` keeps every element of the list: the moved file is
re-inserted and the others survive the erasure. -/
theorem mem_moveFileAfter (v : List FileRecord) (s : Nat) (t : Int) (g : FileRecord)
    (hs : s < v.length) (hthigh : t < (v.length : Int))
    (hst : t ≠ (s : Int)) (hg : g ∈ v) : g ∈ moveFileAfter v s t := by
  have hf : v.get? s = some (v.get ⟨s, hs⟩) := List.get?_eq_get hs
  unfold moveFileAfter
  rw [hf]
  have hrest : (v.eraseIdx s).length + 1 = v.length := List.length_eraseIdx_add_one hs
  have hpos : (if t < (s : Int) then (t + 1).toNat else t.toNat) ≤
      (v.eraseIdx s).length := by
    by_cases hts : t < (s : Int) <;> simp only [hts, if_true, if_false, ite_true,
      ite_false] <;> omega
  rw [List.mem_insertIdx hpos]
  obtain ⟨⟨n, hn⟩, hgn⟩ := List.mem_iff_get.mp hg
  by_cases hns : n = s
  · left
    subst hns
    exact hgn.symm
  · right
    rw [List.mem_eraseIdx_iff_getElem?]
    refine ⟨n, hns, ?_⟩
    rw [← List.get?_eq_getElem?, List.get?_eq_get hn, hgn]

/-- C8, witness: dragging from index `2` over the left half of the first
tab and dropping issues `moveFileAfter(2, -1)`. -/
theorem dragOver_first_tab_then_drop_witness :
    (targetTabDragOver 0 true 2 0 20 { draggedFileIndex := some 2 }).targetFileIndex =
      some (-1) ∧
    targetTabDrop (targetTabDragOver 0 true 2 0 20 { draggedFileIndex := some 2 }) =
      ({ ({ draggedFileIndex := some 2 } : TabBarState) with targetFileIndex := none },
        some { source := 2, target := -1 }) :=
  dragOver_first_tab_then_drop { draggedFileIndex := some 2 } 2 2 0 20 rfl
    (by decide) (by norm_num)

/-- C3: whenever the previous active name appears among no visible file,
recovery selects the nearest remaining visible file at an index at most
the previous active index — the file at index
`min prevIdx (length - 1)` of the new visible sequence — and when no
visible file exists at all, the active name becomes the empty string and
the active index resets to `0`.  The embedding is a total function, so no
exception can be thrown. -/
theorem recovery_after_deletion (files : List FileRecord) (prevName : String) (prevIdx : Nat)
    (h : prevName ∉ (visibleFiles files).map FileRecord.name) :
    (visibleFiles files = [] →
      setNewActiveFile (visibleFiles files) prevName prevIdx = ("", 0)) ∧
    (visibleFiles files ≠ [] →
      ∃ f, (visibleFiles files).get? (min prevIdx ((visibleFiles files).length - 1)) =
          some f ∧
        (setNewActiveFile (visibleFiles files) prevName prevIdx).1 = f.name) := by
  rw [setNewActiveFile_fallback _ _ _ h]
  constructor
  · intro hv
    rw [hv]
    simp [backwardWalk_nil]
  · intro hv
    have hwalk := backwardWalk_noHidden _ (visibleFiles_noHidden files) hv prevIdx
    have hlen : 0 < (visibleFiles files).length := List.length_pos.mpr hv
    have hlt : min prevIdx ((visibleFiles files).length - 1) <
        (visibleFiles files).length := by omega
    obtain ⟨f, hf⟩ : ∃ f,
        (visibleFiles files).get? (min prevIdx ((visibleFiles files).length - 1)) =
          some f := ⟨_, List.get?_eq_get hlt⟩
    refine ⟨f, hf, ?_⟩
    rw [hwalk, hf]

/-- C3, witness: recovering in `[index.html]` from the vanished name `zz`
at index `5` selects the file at index `min 5 0 = 0`. -/
theorem recovery_after_deletion_witness :
    ∃ f, (visibleFiles [{ name := "index.html" }]).get?
        (min 5 ((visibleFiles [{ name := "index.html" }]).length - 1)) = some f ∧
      (setNewActiveFile (visibleFiles [{ name := "index.html" }]) "zz" 5).1 = f.name :=
  (recovery_after_deletion [{ name := "index.html" }] "zz" 5 (by decide)).2 (by decide)

/-- C10: when recovery takes the backward-walk fallback (previous active
name gone, some visible file present), only `activeFileName` is assigned:
the resulting `activeFileIndex` is exactly the previous one, even though
the selected file sits at `min prevIdx (length - 1)`, which can differ
from it. -/
theorem recovery_fallback_keeps_index (files : List FileRecord) (prevName : String)
    (prevIdx : Nat) (h : prevName ∉ (visibleFiles files).map FileRecord.name)
    (hne : visibleFiles files ≠ []) :
    (setNewActiveFile (visibleFiles files) prevName prevIdx).2 = prevIdx ∧
    ∃ f, backwardWalk (visibleFiles files) prevIdx = some f ∧
      (setNewActiveFile (visibleFiles files) prevName prevIdx).1 = f.name := by
  rw [setNewActiveFile_fallback _ _ _ h]
  have hwalk := backwardWalk_noHidden _ (visibleFiles_noHidden files) hne prevIdx
  have hlen : 0 < (visibleFiles files).length := List.length_pos.mpr hne
  have hlt : min prevIdx ((visibleFiles files).length - 1) <
      (visibleFiles files).length := by omega
  obtain ⟨f, hf⟩ : ∃ f,
      (visibleFiles files).get? (min prevIdx ((visibleFiles files).length - 1)) =
        some f := ⟨_, List.get?_eq_get hlt⟩
  rw [hwalk, hf]
  exact ⟨rfl, f, rfl, rfl⟩

/-- C10, witness: recovering in `[index.html]` from the vanished name `zz`
at index `3` selects the file at index `0` but keeps the stored index `3`,
which now points past the selected file. -/
theorem recovery_fallback_keeps_index_witness :
    (setNewActiveFile (visibleFiles [{ name := "index.html" }]) "zz" 3).2 = 3 ∧
    ∃ f, backwardWalk (visibleFiles [{ name := "index.html" }]) 3 = some f ∧
      (setNewActiveFile (visibleFiles [{ name := "index.html" }]) "zz" 3).1 = f.name :=
  recovery_fallback_keeps_index [{ name := "index.html" }] "zz" 3 (by decide) (by decide)

/-- C6: a `filesChanged` notification with `projectLoaded = true` whose
visible sequence contains a selected file (the one `find?` locates, with a
nonempty name) makes that file the active file, with the active index
pointing at a visible file of that name. -/
theorem projectLoad_selects_selected_file (files : List FileRecord) (name : String)
    (idx : Nat) (hnames : ∀ f ∈ visibleFiles files, f.name ≠ "")
    (f : FileRecord)
    (hf : (visibleFiles files).find? (fun g => g.selected) = some f) :
    (handleFilesChanged (visibleFiles files) true name idx).1 = f.name ∧
    ((visibleFiles files).get? (handleFilesChanged (visibleFiles files) true name idx).2).map
      FileRecord.name = some f.name := by
  have hmem : f ∈ visibleFiles files := List.mem_of_find?_eq_some hf
  have hfname : f.name ≠ "" := hnames f hmem
  have hex : ∃ x ∈ visibleFiles files, (x.name == f.name) = true := ⟨f, hmem, by simp⟩
  have hfi := List.findIdx?_eq_some_of_exists hex
  have hlt := List.findIdx_lt_length_of_exists hex
  have hp := @List.findIdx_getElem _ (fun x => x.name == f.name) (visibleFiles files) hlt
  have hstep : handleFilesChanged (visibleFiles files) true name idx =
      setNewActiveFile (visibleFiles files) f.name idx := by
    unfold handleFilesChanged
    simp [hf]
  have hset : setNewActiveFile (visibleFiles files) f.name idx =
      (f.name, (visibleFiles files).findIdx (fun x => x.name == f.name)) := by
    unfold setNewActiveFile
    simp [hfname, hfi]
  rw [hstep, hset]
  refine ⟨rfl, ?_⟩
  rw [List.get?_eq_getElem?, List.getElem?_eq_getElem hlt]
  simpa using hp

/-- C6, witness: loading `[index.html, {a.js, selected}]` makes `a.js` the
active file. -/
theorem projectLoad_selects_selected_file_witness :
    (handleFilesChanged (visibleFiles scenarioCfiles) true "" 0).1 = "a.js" ∧
    ((visibleFiles scenarioCfiles).get?
        (handleFilesChanged (visibleFiles scenarioCfiles) true "" 0).2).map
      FileRecord.name = some "a.js" :=
  projectLoad_selects_selected_file scenarioCfiles "" 0 (by decide)
    { name := "a.js", selected := true } (by decide)

/-- C7: for every visible sequence and every valid `(source, target)` pair
with `source ≠ target` and `target` not adjacent to `source`, after the
`moveFileAfter` reorder and the subsequent recovery the active file's name
is unchanged, and the active index is updated to the name's position in
the reordered sequence (the file stored at the resulting index carries the
active name). -/
theorem reorder_preserves_active_identity (v : List FileRecord) (s : Nat) (t : Int)
    (activeName : String) (prevIdx : Nat)
    (hs : s < v.length) (htlow : -1 ≤ t) (hthigh : t < (v.length : Int))
    (hst : t ≠ (s : Int)) (hadj : t ≠ (s : Int) - 1)
    (hname : activeName ∈ v.map FileRecord.name) (hne : activeName ≠ "") :
    (setNewActiveFile (moveFileAfter v s t) activeName prevIdx).1 = activeName ∧
    ((moveFileAfter v s t).get?
        (setNewActiveFile (moveFileAfter v s t) activeName prevIdx).2).map
      FileRecord.name = some activeName := by
  obtain ⟨g, hgmem, hgname⟩ := List.mem_map.mp hname
  have hgmem' : g ∈ moveFileAfter v s t :=
    mem_moveFileAfter v s t g hs hthigh hst hgmem
  have hex : ∃ x ∈ moveFileAfter v s t, (x.name == activeName) = true :=
    ⟨g, hgmem', by simp [hgname]⟩
  obtain ⟨hpair, hget⟩ := setNewActiveFile_found (moveFileAfter v s t) activeName prevIdx hne hex
  rw [hpair]
  exact ⟨rfl, hget⟩

/-- C7, witness (Scenario B): in `[index.html, a.js, b.js, c.js]` with
active file `a.js`, moving index `3` after index `0` keeps the active name
`a.js` and the resulting index points at `a.js` in the reordered sequence
`[index.html, c.js, a.js, b.js]`. -/
theorem reorder_preserves_active_identity_witness :
    (setNewActiveFile (moveFileAfter scenarioBfiles 3 0) "a.js" 1).1 = "a.js" ∧
    ((moveFileAfter scenarioBfiles 3 0).get?
        (setNewActiveFile (moveFileAfter scenarioBfiles 3 0) "a.js" 1).2).map
      FileRecord.name = some "a.js" :=
  reorder_preserves_active_identity scenarioBfiles 3 0 "a.js" 1 (by decide) (by decide)
    (by decide) (by decide) (by decide) (by decide) (by decide)

/-- Every single event step preserves the drag-affordance invariant. -/
theorem step_preserves_inv (files : List FileRecord) (s : TabBarState) (e : Ev)
    (h : Inv files s) : Inv files (step files s e).1 := by
  obtain ⟨h1, h2⟩ := h
  cases e with
  | indicatorOver i =>
    by_cases hp : indicatorPresent files s i
    · simp only [step, if_pos hp, dragIndicatorMouseOver]
      refine ⟨?_, h2⟩
      intro j hj
      simp only at hj
      obtain rfl : (i : Int) = j := Option.some.inj hj
      unfold indicatorPresent at hp
      simp only [Bool.and_eq_true] at hp
      obtain ⟨⟨_, hmid⟩, _⟩ := hp
      cases hget : (visibleFiles files).get? i with
      | none => rw [hget] at hmid; exact absurd hmid (by simp)
      | some f =>
        rw [hget] at hmid
        refine ⟨f, by simpa using hget, ?_⟩
        simpa using hmid
    · simpa only [step, if_neg hp] using ⟨h1, h2⟩
  | indicatorOut =>
    simp only [step, dragIndicatorMouseOut]
    exact ⟨fun j hj => by simp at hj, h2⟩
  | dragStart i =>
    by_cases hd : tabDraggable files s i
    · simp only [step, if_pos hd, originTabDragStart]
      refine ⟨h1, ?_⟩
      intro j hj
      simp only at hj
      obtain rfl : (i : Int) = j := Option.some.inj hj
      unfold tabDraggable at hd
      simp only [Bool.and_eq_true, beq_iff_eq] at hd
      exact h1 (i : Int) hd.1.2
    · simpa only [step, if_neg hd] using ⟨h1, h2⟩
  | dragEnd =>
    simp only [step, originTabDragEnd]
    exact ⟨h1, fun j hj => by simp at hj⟩
  | dragOver i isTab x l w =>
    simp only [step, targetTabDragOver]
    split_ifs <;> exact ⟨h1, h2⟩
  | dragLeave exited =>
    simp only [step]
    unfold targetTabDragLeave
    split <;> exact ⟨h1, h2⟩
  | drop =>
    simp only [step]
    unfold targetTabDrop
    split <;> exact ⟨h1, h2⟩

/-- Every command a single step issues names a visible non-pinned file as
its source. -/
theorem step_cmd_safe (files : List FileRecord) (s : TabBarState) (e : Ev) (c : Command)
    (h : Inv files s) (hc : (step files s e).2 = some c) :
    ∃ f, (visibleFiles files).get? c.source.toNat = some f ∧ f.name ≠ "index.html" := by
  cases e with
  | indicatorOver i => exact absurd hc (by simp [step])
  | indicatorOut => exact absurd hc (by simp [step])
  | dragStart i => exact absurd hc (by simp [step])
  | dragEnd => exact absurd hc (by simp [step])
  | dragOver i isTab x l w => exact absurd hc (by simp [step])
  | dragLeave exited => exact absurd hc (by simp [step])
  | drop =>
    simp only [step] at hc
    unfold targetTabDrop at hc
    by_cases hg : (jsFalsy s.draggedFileIndex ||
        (jsFalsy s.targetFileIndex && s.targetFileIndex ≠ some 0)) = true
    · rw [if_pos hg] at hc
      exact absurd hc (by simp)
    · rw [if_neg hg] at hc
      have hco : ({ source := s.draggedFileIndex.getD 0, target := s.targetFileIndex.getD 0 } : Command) = c :=
        Option.some.inj hc
      cases hdr : s.draggedFileIndex with
      | none =>
        rw [hdr] at hg
        simp [jsFalsy] at hg
      | some d =>
        have hsrc : c.source = d := by
          rw [← hco]
          simp [hdr]
        rw [hsrc]
        exact h.2 d hdr

/-- Running any event sequence from an invariant state keeps the invariant
and only issues commands whose source is a visible non-pinned file. -/
theorem run_inv (files : List FileRecord) (evs : List Ev) :
    ∀ s : TabBarState, Inv files s →
      Inv files (run files s evs).1 ∧
      ∀ c ∈ (run files s evs).2,
        ∃ f, (visibleFiles files).get? c.source.toNat = some f ∧
          f.name ≠ "index.html" := by
  induction evs with
  | nil =>
    intro s h
    exact ⟨h, by simp [run]⟩
  | cons e rest ih =>
    intro s h
    obtain ⟨hinv, hcmds⟩ := ih (step files s e).1 (step_preserves_inv files s e h)
    refine ⟨by simpa [run] using hinv, ?_⟩
    intro c hc
    simp only [run, List.mem_append] at hc
    rcases hc with hc | hc
    · have hsome : (step files s e).2 = some c := by
        cases hop : (step files s e).2 with
        | none => rw [hop] at hc; simp at hc
        | some c' =>
          rw [hop] at hc
          simp at hc
          rw [hc]
      exact step_cmd_safe files s e c h hsome
    · exact hcmds c hc

/-- C5: over every sequence of pointer and hover events from the initial
state, the file named `index.html` never becomes draggable
(`_draggableFileIndex` never points at it), never becomes the dragged item
(`_draggedFileIndex` never points at it), and no issued reorder command
names it as its source. -/
theorem pinned_file_never_dragged (files : List FileRecord) (editable : Bool)
    (evs : List Ev) :
    (∀ i : Int, (run files (initState editable) evs).1.draggableFileIndex = some i →
      ∃ f, (visibleFiles files).get? i.toNat = some f ∧ f.name ≠ "index.html") ∧
    (∀ i : Int, (run files (initState editable) evs).1.draggedFileIndex = some i →
      ∃ f, (visibleFiles files).get? i.toNat = some f ∧ f.name ≠ "index.html") ∧
    (∀ c ∈ (run files (initState editable) evs).2,
      ∃ f, (visibleFiles files).get? c.source.toNat = some f ∧
        f.name ≠ "index.html") := by
  have hinit : Inv files (initState editable) :=
    ⟨fun i hi => by simp [initState] at hi, fun i hi => by simp [initState] at hi⟩
  obtain ⟨⟨ha, hb⟩, hc⟩ := run_inv files evs (initState editable) hinit
  exact ⟨ha, hb, hc⟩

/-- C5, witness: the demonstration run that drags `c.js` (index 3) and
drops it after the first file issues the command with source `3`, and the
theorem yields that the file at index `3` is not `index.html`. -/
theorem pinned_file_never_dragged_witness :
    ∃ f, (visibleFiles scenarioBfiles).get? ((3 : Int)).toNat = some f ∧
      f.name ≠ "index.html" :=
  (pinned_file_never_dragged scenarioBfiles true demoEvs).2.2
    { source := 3, target := 0 } (by decide)

end PlaygroundTabBar
